import Mathlib

/-!
Verification of the project-scoping / Lua-sandbox subsystem of the
`aduermael/docker` CLI fork, against its natural-language specification.

The Go source is shallowly embedded: Lua values become an inductive type,
Lua tables become association lists from keys to values, the Lua stack
becomes a list, the process state (working directory) is threaded
explicitly, and fallible Go functions return `Except`/`Option`.

Source files embedded here:
  * `proj/luaUtils.go`        — Lua value/table helpers
  * `proj/project.go`         — `listCommands`, `Exec`, `Load`,
                                `IsCommandOverrideAllowed`
  * `proj/project/init.go`    — `FindProjectRoot`, `isProjectRoot`
  * `proj/project/project.go` — `ConfigFileName`, `Command`
  * `lua-sandbox/*.go`        — `popStringParam`
  * `proj/dockerImage.go`     — `removeImageIDHeader`, image marshalling
  * `cmd/docker` main         — command dispatch
  * recent-projects index     — `SaveInRecentProjects`
  * label propagation         — container/volume create call sites
-/

namespace DockerProj

/-! ## Lua value model (gopher-lua `LValue`) -/

/-- A Lua table key.  gopher-lua keys are arbitrary non-nil values; the
code under study only discriminates numbers and strings, every other
key kind is collapsed into `other`. -/
inductive LuaKey where
  | num (n : Int)
  | str (s : String)
  | boolean (b : Bool)
  | other (id : Nat)
deriving DecidableEq, Repr

/-- A Lua value (`lua.LValue`).  A table is its list of entries
(distinct keys, values never `nil`, array part first as gopher-lua
iterates it).  A function (`*lua.LFunction`) is an opaque reference. -/
inductive LuaValue where
  | nil
  | boolean (b : Bool)
  | number (n : Int)
  | str (s : String)
  | table (entries : List (LuaKey × LuaValue))
  | fn (ref : Nat)
deriving Repr

/-- A Lua table, named after `*lua.LTable`. -/
abbrev LuaTable := List (LuaKey × LuaValue)

/-- Go `LTable.RawGet`: first entry with the given key, `nil` when absent. -/
def rawGet : LuaTable → LuaKey → LuaValue
  | [], _ => .nil
  | (k', v) :: rest, k => if k' = k then v else rawGet rest k

/-- Go `LTable.RawGetString`. -/
def rawGetString (t : LuaTable) (s : String) : LuaValue :=
  rawGet t (.str s)

/-- Go `LTable.RawGetInt`. -/
def rawGetInt (t : LuaTable) (i : Int) : LuaValue :=
  rawGet t (.num i)

/-- Whether a key is present in the table. -/
def hasKey (t : LuaTable) (k : LuaKey) : Bool :=
  t.any (fun e => e.1 = k)

/-- Helper for `luaLen`: counts the consecutive integer keys `i, i+1, …`
present in the table, with enough fuel to exhaust the table. -/
def luaLenFrom (t : LuaTable) : Nat → Int → Nat
  | 0, _ => 0
  | fuel + 1, i => if hasKey t (.num i) then luaLenFrom t fuel (i + 1) + 1 else 0

/-- Go `LTable.Len`: the length of the array part, i.e. the number of
consecutive integer keys starting at 1. -/
def luaLen (t : LuaTable) : Nat :=
  luaLenFrom t (t.length + 1) 1

/-! ## `proj/luaUtils.go` type assertions and validations -/

/-- Go `luaValueToString`. -/
def luaValueToString : LuaValue → Option String
  | .str s => some s
  | _ => none

/-- Go `luaValueToTable`. -/
def luaValueToTable : LuaValue → Option LuaTable
  | .table t => some t
  | _ => none

/-- Go `luaValueToFunction`. -/
def luaValueToFunction : LuaValue → Option Nat
  | .fn r => some r
  | _ => none

/-- Go `luaValueIsNumber`. -/
def luaValueIsNumber : LuaValue → Bool
  | .number _ => true
  | _ => false

/-- Whether a table key is a number (`luaValueIsNumber` applied to a
`ForEach` key). -/
def luaKeyIsNumber : LuaKey → Bool
  | .num _ => true
  | _ => false

/-- Whether a table key is a string. -/
def luaKeyIsString : LuaKey → Bool
  | .str _ => true
  | _ => false

/-- Go `luaTableIsArray`: every key is a number and the number of keys
equals the array-part length. -/
def luaTableIsArray (t : LuaTable) : Bool :=
  t.all (fun e => luaKeyIsNumber e.1) && t.length == luaLen t

/-- Go `luaTableIsMap`: the array part is empty. -/
def luaTableIsMap (t : LuaTable) : Bool :=
  luaLen t == 0

/-! ## `proj/project/project.go`: task catalog data model -/

/-- Go `ConfigFileName`: the project marker file name. -/
def ConfigFileName : String := "dockerproject.lua"

/-- Go `iface.Command`: one parsed task.  `Function` is the opaque
reference to the Lua callable. -/
structure Command where
  Name : String
  ShortDescription : String
  Description : String
  Function : Nat
deriving DecidableEq, Repr

/-! ## `proj/project.go`: `listCommands` -/

/-- Error prefix used by `listCommands`. -/
def errorPfx : String := "error in Lua tasks definition: "

/-- The per-key body of the `listCommands` loop in `proj/project.go`:
given a task name `k` and the Lua value declared for it, either build
the uniform `Command` or fail with the exact error message of the Go
code. -/
def parseTask (k : String) (v : LuaValue) : Except String Command :=
  match luaValueToFunction v with
  | some f => .ok ⟨k, "", "", f⟩
  | none =>
    match luaValueToTable v with
    | some lt =>
      if luaTableIsArray lt then
        if luaLen lt = 1 then
          match luaValueToFunction (rawGetInt lt 1) with
          | some f => .ok ⟨k, "", "", f⟩
          | none =>
            .error (errorPfx ++ "one-cell array must contain a function (" ++ k ++ ")")
        else if luaLen lt = 2 then
          match luaValueToFunction (rawGetInt lt 1) with
          | some f =>
            match luaValueToString (rawGetInt lt 2) with
            | some s => .ok ⟨k, s, s, f⟩
            | none =>
              .error (errorPfx ++ "2-cell array must contain a function and a string (" ++ k ++ ")")
          | none =>
            .error (errorPfx ++ "2-cell array must contain a function and a string (" ++ k ++ ")")
        else if luaLen lt = 3 then
          match luaValueToFunction (rawGetInt lt 1) with
          | some f =>
            match luaValueToString (rawGetInt lt 2) with
            | some s1 =>
              match luaValueToString (rawGetInt lt 3) with
              | some s2 => .ok ⟨k, s1, s2, f⟩
              | none =>
                .error (errorPfx ++ "3-cell array must contain a function and 2 strings (" ++ k ++ ")")
            | none =>
              .error (errorPfx ++ "3-cell array must contain a function and 2 strings (" ++ k ++ ")")
          | none =>
            .error (errorPfx ++ "3-cell array must contain a function and 2 strings (" ++ k ++ ")")
        else
          .error (errorPfx ++ "tasks defined as arrays can only have 1, 2 or 3 elements (" ++ k ++ ")")
      else if luaTableIsMap lt then
        match luaValueToFunction (rawGetString lt "func") with
        | some f =>
          let shortStr := (luaValueToString (rawGetString lt "short")).getD ""
          let descStr := (luaValueToString (rawGetString lt "desc")).getD ""
          let shortStr2 := if shortStr = "" ∧ descStr ≠ "" then descStr else shortStr
          let descStr2 := if shortStr ≠ "" ∧ descStr = "" then shortStr else descStr
          .ok ⟨k, shortStr2, descStr2, f⟩
        | none =>
          .error (errorPfx ++ "\"func\" field of a task must be a function (" ++ k ++ ")")
      else
        .error (errorPfx ++ "definition accepts a pure \"map\" OR a pure \"array\" (" ++ k ++ ")")
    | none =>
      .error (errorPfx ++ "definition can only be a Lua function or a Lua table (" ++ k ++ ")")

/-- The key loop of `listCommands`: Go collects the keys with `ForEach`
and then processes them in order, failing on the first non-string key
or malformed value. -/
def listCommandsLoop (tasks : LuaTable) : List LuaKey → Except String (List Command)
  | [] => .ok []
  | k :: rest =>
    match k with
    | .str s =>
      match parseTask s (rawGetString tasks s) with
      | .error e => .error e
      | .ok c =>
        match listCommandsLoop tasks rest with
        | .error e => .error e
        | .ok cs => .ok (c :: cs)
    | _ => .error (errorPfx ++ "task names must be strings")

/-- Lexicographic comparison of character lists; Go's `<`/`≤` on strings
is byte-wise lexicographic on UTF-8 bytes, which coincides with
code-point lexicographic order. -/
def charsLE : List Char → List Char → Bool
  | [], _ => true
  | _ :: _, [] => false
  | a :: as, b :: bs => if a < b then true else if b < a then false else charsLE as bs

theorem charsLE_total : ∀ a b : List Char, charsLE a b = true ∨ charsLE b a = true := by
  intro a
  induction a with
  | nil => intro b; left; rfl
  | cons x xs ih =>
    intro b
    cases b with
    | nil => right; rfl
    | cons y ys =>
      by_cases hxy : x < y
      · left; simp [charsLE, hxy]
      · by_cases hyx : y < x
        · right; simp [charsLE, hyx, hxy]
        · rcases ih ys with h | h
          · left; simp [charsLE, hxy, hyx, h]
          · right; simp [charsLE, hxy, hyx, h]

theorem charsLE_trans : ∀ a b c : List Char,
    charsLE a b = true → charsLE b c = true → charsLE a c = true := by
  intro a
  induction a with
  | nil => intro b c _ _; rfl
  | cons x xs ih =>
    intro b c hab hbc
    cases b with
    | nil => simp [charsLE] at hab
    | cons y ys =>
      cases c with
      | nil => simp [charsLE] at hbc
      | cons z zs =>
        simp only [charsLE] at hab hbc ⊢
        by_cases hxy : x < y
        · by_cases hyz : y < z
          · simp [lt_trans hxy hyz]
          · by_cases hzy : z < y
            · rw [if_neg hyz, if_pos hzy] at hbc
              simp at hbc
            · have : y = z := le_antisymm (not_lt.mp hzy) (not_lt.mp hyz)
              subst this
              simp [hxy]
        · by_cases hyx : y < x
          · simp [if_neg hxy, if_pos hyx] at hab
          · have hxy' : x = y := le_antisymm (not_lt.mp hyx) (not_lt.mp hxy)
            subst hxy'
            by_cases hxz : x < z
            · simp [hxz]
            · by_cases hzx : z < x
              · simp [if_neg hxz, if_pos hzx] at hbc
              · simp only [if_neg hxy, if_neg hyx] at hab
                simp only [if_neg hxz, if_neg hzx] at hbc ⊢
                exact ih ys zs hab hbc

/-- Ordering used by `sort.Sort(ByName(cmds))` (`ByName.Less` compares
`Name` with Go's string `<`). -/
def cmdNameLE (a b : Command) : Prop := charsLE a.Name.data b.Name.data = true

instance : DecidableRel cmdNameLE :=
  fun a b => inferInstanceAs (Decidable (charsLE a.Name.data b.Name.data = true))

instance : IsTotal Command cmdNameLE := ⟨fun a b => charsLE_total a.Name.data b.Name.data⟩

instance : IsTrans Command cmdNameLE :=
  ⟨fun a b c h h' => charsLE_trans a.Name.data b.Name.data c.Name.data h h'⟩

/-- Go `Project.listCommands` (`proj/project.go`): rejects a tasks table
with a non-empty array part, parses each key, and sorts the resulting
catalog by name (`sort.Sort` is modelled by an insertion sort; it
guarantees exactly a by-name-sorted permutation). -/
def listCommands (tasks : LuaTable) : Except String (List Command) :=
  if luaLen tasks ≠ 0 then
    .error (errorPfx ++ "can't accept arrays, only pure maps")
  else
    match listCommandsLoop tasks (tasks.map Prod.fst) with
    | .error e => .error e
    | .ok cmds => .ok (List.insertionSort cmdNameLE cmds)

/-- Every command produced by the `listCommands` loop comes from
`parseTask` applied to one of the traversed keys. -/
theorem listCommandsLoop_mem (tasks : LuaTable) (ks : List LuaKey)
    (cs : List Command) (h : listCommandsLoop tasks ks = .ok cs) :
    ∀ c ∈ cs, ∃ k, LuaKey.str k ∈ ks ∧ parseTask k (rawGetString tasks k) = .ok c := by
  induction ks generalizing cs with
  | nil =>
    simp only [listCommandsLoop] at h
    cases h
    intro c hc
    cases hc
  | cons k rest ih =>
    intro c hc
    cases k with
    | str s =>
      simp only [listCommandsLoop] at h
      cases hp : parseTask s (rawGetString tasks s) with
      | error e => rw [hp] at h; cases h
      | ok c0 =>
        rw [hp] at h
        cases hl : listCommandsLoop tasks rest with
        | error e => rw [hl] at h; cases h
        | ok cs0 =>
          rw [hl] at h
          cases h
          rcases List.mem_cons.mp hc with hceq | hcm
          · exact ⟨s, List.mem_cons_self _ _, hceq ▸ hp⟩
          · rcases ih cs0 hl c hcm with ⟨k', hk', hp'⟩
            exact ⟨k', List.mem_cons_of_mem _ hk', hp'⟩
    | num n => simp only [listCommandsLoop] at h; cases h
    | boolean b => simp only [listCommandsLoop] at h; cases h
    | other i => simp only [listCommandsLoop] at h; cases h

/-- C1: task catalog parsing accepts exactly the five legal declaration
shapes and normalises each into a uniform `Command`: a bare function and
a 1-element array yield empty short/long descriptions; a 2-element array
`(function, s)` uses `s` for both; a 3-element array `(function, s1, s2)`
uses `s1` as short and `s2` as long description; a keyed map requires
`func` and takes optional `short`/`desc` strings, an empty one inheriting
the other's value; in every case the `Command`'s function is the declared
callable, and the catalog returned by `listCommands` is sorted ascending
by task name, each entry produced by `parseTask` from a declared key. -/
theorem C1_task_shapes (k s s1 s2 : String) (f : Nat) (tasks : LuaTable)
    (cmds : List Command) :
    parseTask k (.fn f) = .ok ⟨k, "", "", f⟩
    ∧ parseTask k (.table [(.num 1, .fn f)]) = .ok ⟨k, "", "", f⟩
    ∧ parseTask k (.table [(.num 1, .fn f), (.num 2, .str s)]) = .ok ⟨k, s, s, f⟩
    ∧ parseTask k (.table [(.num 1, .fn f), (.num 2, .str s1), (.num 3, .str s2)]) =
        .ok ⟨k, s1, s2, f⟩
    ∧ parseTask k (.table [(.str "func", .fn f)]) = .ok ⟨k, "", "", f⟩
    ∧ parseTask k (.table [(.str "func", .fn f), (.str "short", .str s1), (.str "desc", .str s2)]) =
        .ok ⟨k, (if s1 = "" ∧ s2 ≠ "" then s2 else s1),
               (if s1 ≠ "" ∧ s2 = "" then s1 else s2), f⟩
    ∧ (listCommands tasks = .ok cmds →
        List.Sorted cmdNameLE cmds ∧
        ∀ c ∈ cmds, ∃ k', LuaKey.str k' ∈ tasks.map Prod.fst ∧
          parseTask k' (rawGetString tasks k') = .ok c) := by
  refine ⟨rfl, rfl, rfl, rfl, rfl, rfl, ?_⟩
  intro h
  unfold listCommands at h
  split at h
  · cases h
  · cases hl : listCommandsLoop tasks (tasks.map Prod.fst) with
    | error e => rw [hl] at h; cases h
    | ok cs =>
      rw [hl] at h
      cases h
      constructor
      · exact List.sorted_insertionSort cmdNameLE cs
      · intro c hc
        exact listCommandsLoop_mem tasks _ cs hl c
          ((List.perm_insertionSort cmdNameLE cs).mem_iff.mp hc)

/-- Witness for C1: a concrete two-task catalog is accepted, comes out
sorted by name, and every entry arises from its declared key. -/
theorem C1_task_shapes_witness :
    List.Sorted cmdNameLE
      [⟨"a", "x", "x", 1⟩, ⟨"b", "", "", 0⟩] ∧
    ∀ c ∈ ([⟨"a", "x", "x", 1⟩, ⟨"b", "", "", 0⟩] : List Command),
      ∃ k', LuaKey.str k' ∈
          ([(.str "b", .fn 0),
            (.str "a", .table [(.num 1, .fn 1), (.num 2, .str "x")])] : LuaTable).map Prod.fst ∧
        parseTask k' (rawGetString
          [(.str "b", .fn 0),
           (.str "a", .table [(.num 1, .fn 1), (.num 2, .str "x")])] k') = .ok c :=
  (C1_task_shapes "k" "s" "s1" "s2" 0
      [(.str "b", .fn 0), (.str "a", .table [(.num 1, .fn 1), (.num 2, .str "x")])]
      [⟨"a", "x", "x", 1⟩, ⟨"b", "", "", 0⟩]).2.2.2.2.2.2 (by rfl)


/-! ## C2: rejection of malformed task declarations -/

/-- The five legal task-declaration shapes, as enumerated by the
specification: a bare function, a 1/2/3-element array of
`(function[, string[, string]])`, or a pure map whose `func` field is a
function.  Everything else is malformed. -/
def goodShapeB : LuaValue → Bool
  | .fn _ => true
  | .table lt =>
    if luaTableIsArray lt then
      if luaLen lt = 1 then (luaValueToFunction (rawGetInt lt 1)).isSome
      else if luaLen lt = 2 then
        (luaValueToFunction (rawGetInt lt 1)).isSome
          && (luaValueToString (rawGetInt lt 2)).isSome
      else if luaLen lt = 3 then
        (luaValueToFunction (rawGetInt lt 1)).isSome
          && (luaValueToString (rawGetInt lt 2)).isSome
          && (luaValueToString (rawGetInt lt 3)).isSome
      else false
    else if luaTableIsMap lt then (luaValueToFunction (rawGetString lt "func")).isSome
    else false
  | _ => false

/-- A tasks table is malformed when its array part is non-empty, some
key is not a string, or some string key maps to a value that is not one
of the five legal shapes. -/
def tasksMalformed (tasks : LuaTable) : Bool :=
  (luaLen tasks != 0)
    || (tasks.any (fun e => !luaKeyIsString e.1)
    || tasks.any (fun e =>
        match e.1 with
        | .str k => !goodShapeB (rawGetString tasks k)
        | _ => false))

/-- Go `parseTask` applied to a table value, with the outer type dispatch
already reduced. -/
theorem parseTask_table (k : String) (lt : LuaTable) :
    parseTask k (.table lt) =
      if luaTableIsArray lt then
        if luaLen lt = 1 then
          match luaValueToFunction (rawGetInt lt 1) with
          | some f => .ok ⟨k, "", "", f⟩
          | none =>
            .error (errorPfx ++ "one-cell array must contain a function (" ++ k ++ ")")
        else if luaLen lt = 2 then
          match luaValueToFunction (rawGetInt lt 1) with
          | some f =>
            match luaValueToString (rawGetInt lt 2) with
            | some s => .ok ⟨k, s, s, f⟩
            | none =>
              .error (errorPfx ++ "2-cell array must contain a function and a string (" ++ k ++ ")")
          | none =>
            .error (errorPfx ++ "2-cell array must contain a function and a string (" ++ k ++ ")")
        else if luaLen lt = 3 then
          match luaValueToFunction (rawGetInt lt 1) with
          | some f =>
            match luaValueToString (rawGetInt lt 2) with
            | some s1 =>
              match luaValueToString (rawGetInt lt 3) with
              | some s2 => .ok ⟨k, s1, s2, f⟩
              | none =>
                .error (errorPfx ++ "3-cell array must contain a function and 2 strings (" ++ k ++ ")")
            | none =>
              .error (errorPfx ++ "3-cell array must contain a function and 2 strings (" ++ k ++ ")")
          | none =>
            .error (errorPfx ++ "3-cell array must contain a function and 2 strings (" ++ k ++ ")")
        else
          .error (errorPfx ++ "tasks defined as arrays can only have 1, 2 or 3 elements (" ++ k ++ ")")
      else if luaTableIsMap lt then
        match luaValueToFunction (rawGetString lt "func") with
        | some f =>
          let shortStr := (luaValueToString (rawGetString lt "short")).getD ""
          let descStr := (luaValueToString (rawGetString lt "desc")).getD ""
          let shortStr2 := if shortStr = "" ∧ descStr ≠ "" then descStr else shortStr
          let descStr2 := if shortStr ≠ "" ∧ descStr = "" then shortStr else descStr
          .ok ⟨k, shortStr2, descStr2, f⟩
        | none =>
          .error (errorPfx ++ "\"func\" field of a task must be a function (" ++ k ++ ")")
      else
        .error (errorPfx ++ "definition accepts a pure \"map\" OR a pure \"array\" (" ++ k ++ ")") :=
  rfl

/-- Go `parseTask` succeeds exactly on the good shapes and otherwise fails
with a message embedding the task name. -/
theorem parseTask_cases (k : String) (v : LuaValue) :
    (goodShapeB v = true ∧ ∃ c, parseTask k v = .ok c)
    ∨ (goodShapeB v = false ∧ ∃ pre post, parseTask k v = .error (pre ++ k ++ post)) := by
  cases v with
  | fn r => exact Or.inl ⟨rfl, _, rfl⟩
  | nil => exact Or.inr ⟨rfl, _, _, rfl⟩
  | boolean b => exact Or.inr ⟨rfl, _, _, rfl⟩
  | number n => exact Or.inr ⟨rfl, _, _, rfl⟩
  | str s => exact Or.inr ⟨rfl, _, _, rfl⟩
  | table lt =>
    rw [parseTask_table]
    simp only [goodShapeB]
    by_cases harr : luaTableIsArray lt
    · simp only [if_pos harr]
      by_cases h1 : luaLen lt = 1
      · simp only [if_pos h1]
        cases hf : luaValueToFunction (rawGetInt lt 1) with
        | some f => exact Or.inl ⟨by trivial, _, rfl⟩
        | none => exact Or.inr ⟨by trivial, _, _, rfl⟩
      · simp only [if_neg h1]
        by_cases h2 : luaLen lt = 2
        · simp only [if_pos h2]
          cases hf : luaValueToFunction (rawGetInt lt 1) with
          | some f =>
            cases hs : luaValueToString (rawGetInt lt 2) with
            | some s => exact Or.inl ⟨by trivial, _, rfl⟩
            | none => exact Or.inr ⟨by trivial, _, _, rfl⟩
          | none => exact Or.inr ⟨by simp, _, _, rfl⟩
        · simp only [if_neg h2]
          by_cases h3 : luaLen lt = 3
          · simp only [if_pos h3]
            cases hf : luaValueToFunction (rawGetInt lt 1) with
            | some f =>
              cases hs1 : luaValueToString (rawGetInt lt 2) with
              | some s1 =>
                cases hs2 : luaValueToString (rawGetInt lt 3) with
                | some s2 => exact Or.inl ⟨by trivial, _, rfl⟩
                | none => exact Or.inr ⟨by simp, _, _, rfl⟩
              | none => exact Or.inr ⟨by simp, _, _, rfl⟩
            | none => exact Or.inr ⟨by simp, _, _, rfl⟩
          · simp only [if_neg h3]
            exact Or.inr ⟨by trivial, _, _, rfl⟩
    · simp only [if_neg harr]
      by_cases hmap : luaTableIsMap lt
      · simp only [if_pos hmap]
        cases hf : luaValueToFunction (rawGetString lt "func") with
        | some f => exact Or.inl ⟨by trivial, _, rfl⟩
        | none => exact Or.inr ⟨by trivial, _, _, rfl⟩
      · simp only [if_neg hmap]
        exact Or.inr ⟨by trivial, _, _, rfl⟩

/-- A successful `listCommands` loop certifies that every traversed key
is a string declaring a well-shaped task. -/
theorem listCommandsLoop_ok_all (tasks : LuaTable) (ks : List LuaKey)
    (cs : List Command) (h : listCommandsLoop tasks ks = .ok cs) :
    ∀ kk ∈ ks, ∃ s, kk = LuaKey.str s ∧ goodShapeB (rawGetString tasks s) = true := by
  induction ks generalizing cs with
  | nil => intro kk hkk; cases hkk
  | cons k rest ih =>
    intro kk hkk
    cases k with
    | str s =>
      simp only [listCommandsLoop] at h
      cases hp : parseTask s (rawGetString tasks s) with
      | error e => rw [hp] at h; cases h
      | ok c0 =>
        rw [hp] at h
        cases hl : listCommandsLoop tasks rest with
        | error e => rw [hl] at h; cases h
        | ok cs0 =>
          rcases List.mem_cons.mp hkk with hkeq | hkm
          · subst hkeq
            refine ⟨s, rfl, ?_⟩
            rcases parseTask_cases s (rawGetString tasks s) with ⟨hg, _⟩ | ⟨_, _, _, he⟩
            · exact hg
            · rw [hp] at he; cases he
          · exact ih cs0 hl kk hkm
    | num n => simp only [listCommandsLoop] at h; cases h
    | boolean b => simp only [listCommandsLoop] at h; cases h
    | other i => simp only [listCommandsLoop] at h; cases h

/-- A failing `listCommands` loop fails either on a non-string key or
with a message embedding a string key whose declaration is malformed. -/
theorem listCommandsLoop_error_shape (tasks : LuaTable) (ks : List LuaKey)
    (msg : String) (h : listCommandsLoop tasks ks = .error msg) :
    msg = errorPfx ++ "task names must be strings"
    ∨ ∃ k pre post, LuaKey.str k ∈ ks ∧ goodShapeB (rawGetString tasks k) = false
        ∧ msg = pre ++ k ++ post := by
  induction ks generalizing msg with
  | nil => simp only [listCommandsLoop] at h; cases h
  | cons k rest ih =>
    cases k with
    | str s =>
      simp only [listCommandsLoop] at h
      cases hp : parseTask s (rawGetString tasks s) with
      | error e =>
        rw [hp] at h
        cases h
        rcases parseTask_cases s (rawGetString tasks s) with ⟨_, c, hc⟩ | ⟨hb, pre, post, he⟩
        · rw [hp] at hc; cases hc
        · rw [hp] at he
          cases he
          exact Or.inr ⟨s, pre, post, List.mem_cons_self _ _, hb, rfl⟩
      | ok c0 =>
        rw [hp] at h
        cases hl : listCommandsLoop tasks rest with
        | error e =>
          rw [hl] at h
          cases h
          rcases ih _ hl with h' | ⟨k', pre, post, hk', hb, hmsg⟩
          · exact Or.inl h'
          · exact Or.inr ⟨k', pre, post, List.mem_cons_of_mem _ hk', hb, hmsg⟩
        | ok cs0 => rw [hl] at h; cases h
    | num n =>
      simp only [listCommandsLoop] at h
      cases h
      exact Or.inl rfl
    | boolean b =>
      simp only [listCommandsLoop] at h
      cases h
      exact Or.inl rfl
    | other i =>
      simp only [listCommandsLoop] at h
      cases h
      exact Or.inl rfl

/-- C2: task catalog parsing rejects every malformed declaration with an
error and returns no partial catalog: a tasks table with array entries,
a non-string task key, a value that is neither function nor table, an
array of length 0 or > 3 or with mismatched cells, a mixed array/map
table, or a map whose `func` field is not a function, all make
`listCommands` return an error instead of a catalog; the error is the
table-level or non-string-key diagnostic, or a key-level diagnostic
embedding the offending task key. -/
theorem C2_malformed_rejection (tasks : LuaTable) :
    (tasksMalformed tasks = true → ∃ msg, listCommands tasks = .error msg)
    ∧ (∀ msg, listCommands tasks = .error msg →
        msg = errorPfx ++ "can't accept arrays, only pure maps"
        ∨ msg = errorPfx ++ "task names must be strings"
        ∨ ∃ k pre post, LuaKey.str k ∈ tasks.map Prod.fst
            ∧ goodShapeB (rawGetString tasks k) = false
            ∧ msg = pre ++ k ++ post) := by
  constructor
  · intro hmal
    by_cases hlen : luaLen tasks ≠ 0
    · exact ⟨errorPfx ++ "can't accept arrays, only pure maps",
        by simp only [listCommands, if_pos hlen]⟩
    · cases hloop : listCommandsLoop tasks (tasks.map Prod.fst) with
      | error e =>
        exact ⟨e, by simp only [listCommands, if_neg hlen]; rw [hloop]⟩
      | ok cs =>
        exfalso
        have hall := listCommandsLoop_ok_all tasks _ cs hloop
        simp only [tasksMalformed, Bool.or_eq_true, bne_iff_ne, ne_eq,
          List.any_eq_true] at hmal
        rcases hmal with hlen' | ⟨e, he, hbad⟩ | ⟨e, he, hbad⟩
        · exact hlen hlen'
        · rcases hall e.1 (List.mem_map_of_mem Prod.fst he) with ⟨s, hes, _⟩
          rw [hes] at hbad
          simp [luaKeyIsString] at hbad
        · rcases hall e.1 (List.mem_map_of_mem Prod.fst he) with ⟨s, hes, hgood⟩
          rw [hes] at hbad
          simp only [Bool.not_eq_true'] at hbad
          rw [hgood] at hbad
          cases hbad
  · intro msg h
    by_cases hlen : luaLen tasks ≠ 0
    · simp only [listCommands, if_pos hlen] at h
      cases h
      exact Or.inl rfl
    · simp only [listCommands, if_neg hlen] at h
      cases hloop : listCommandsLoop tasks (tasks.map Prod.fst) with
      | error e =>
        rw [hloop] at h
        cases h
        rcases listCommandsLoop_error_shape tasks _ _ hloop with h' | ⟨k, pre, post, hk, hb, hmsg⟩
        · exact Or.inr (Or.inl h')
        · exact Or.inr (Or.inr ⟨k, pre, post, hk, hb, hmsg⟩)
      | ok cs => rw [hloop] at h; cases h

/-- Witness for C2: a 4-element array task named `"t"` is rejected and
no catalog is produced. -/
theorem C2_malformed_rejection_witness :
    ∃ msg, listCommands
      [(.str "t", .table [(.num 1, .fn 0), (.num 2, .str "a"),
                          (.num 3, .str "b"), (.num 4, .str "c")])] = .error msg :=
  (C2_malformed_rejection
      [(.str "t", .table [(.num 1, .fn 0), (.num 2, .str "a"),
                          (.num 3, .str "b"), (.num 4, .str "c")])]).1 (by decide)

/-! ## C3: command dispatch and the override allow-list
(`cmd/docker` main and `proj/project.go`) -/

/-- Go `CommandsAllowedToBeOverridden` from `proj/project.go`. -/
def CommandsAllowedToBeOverridden : List String :=
  ["build", "deploy", "export", "logs", "restart", "run", "start", "stats", "stop"]

/-- Go `IsCommandOverrideAllowed` from `proj/project.go`: linear scan of the
allow-list. -/
def IsCommandOverrideAllowed (cmd : String) : Bool :=
  CommandsAllowedToBeOverridden.contains cmd

/-- The override-rejected diagnostic printed by `main` before
`os.Exit(1)`. -/
def overrideErrorMessage (cmdName : String) : String :=
  "error: " ++ cmdName ++ " can't be overridden.\n" ++
    "this is the list of docker commands that can be overridden:\n" ++
    String.intercalate ", " CommandsAllowedToBeOverridden

/-- Terminal outcome of the dispatch decision in `main`. -/
inductive DispatchOutcome where
  | projectTask (cmdName : String)
  | exitError (code : Nat) (msg : String)
  | builtinFallthrough
deriving DecidableEq, Repr

/-- The dispatch logic of `main` (`cmd/docker`): when a project is
active and the first CLI argument is a declared task, a collision with a
built-in command name is allowed only for names on the allow-list,
otherwise the process exits 1 with the override-rejected message; a
declared task that collides with no built-in, or an allowed collision,
runs the project task; a name that is no declared task falls through to
the ordinary cobra command execution. -/
def dispatch (taskNames builtinNames : List String) (cmdName : String) : DispatchOutcome :=
  if taskNames.contains cmdName then
    if builtinNames.contains cmdName then
      if IsCommandOverrideAllowed cmdName then .projectTask cmdName
      else .exitError 1 (overrideErrorMessage cmdName)
    else .projectTask cmdName
  else .builtinFallthrough

/-- C3: the override allow-list is enforced.  For a declared project
task whose name collides with a built-in command: if the name is not in
the fixed allow-list {build, deploy, export, logs, restart, run, start,
stats, stop} the process exits non-zero with a message listing the
allowed override names, invoking neither the task nor the built-in; if
the name is allowed, or collides with no built-in, the project task is
invoked instead of the built-in. -/
theorem C3_override_allow_list (taskNames builtinNames : List String) (cmdName : String)
    (htask : taskNames.contains cmdName = true) :
    (builtinNames.contains cmdName = true → IsCommandOverrideAllowed cmdName = false →
      dispatch taskNames builtinNames cmdName = .exitError 1 (overrideErrorMessage cmdName)
      ∧ ∃ pre, overrideErrorMessage cmdName =
          pre ++ "build, deploy, export, logs, restart, run, start, stats, stop")
    ∧ (builtinNames.contains cmdName = true → IsCommandOverrideAllowed cmdName = true →
        dispatch taskNames builtinNames cmdName = .projectTask cmdName)
    ∧ (builtinNames.contains cmdName = false →
        dispatch taskNames builtinNames cmdName = .projectTask cmdName)
    ∧ (IsCommandOverrideAllowed cmdName = true ↔
        cmdName ∈ ["build", "deploy", "export", "logs", "restart", "run", "start",
                   "stats", "stop"]) := by
  refine ⟨?_, ?_, ?_, ?_⟩
  · intro hb hna
    refine ⟨?_, ?_⟩
    · simp only [dispatch, htask, hb, hna, if_true, if_false, Bool.false_eq_true]
    · exact ⟨"error: " ++ cmdName ++ " can't be overridden.\n" ++
        "this is the list of docker commands that can be overridden:\n", rfl⟩
  · intro hb ha
    simp only [dispatch, htask, hb, ha, if_true]
  · intro hb
    simp only [dispatch, htask, hb, if_true, Bool.false_eq_true, if_false]
  · exact List.elem_iff

/-- Witness for C3: with tasks {push, build} and built-ins containing
both names, dispatching "push" exits 1 with the allow-list message and
dispatching "build" runs the project task. -/
theorem C3_override_allow_list_witness :
    dispatch ["push", "build"] ["push", "build", "pull"] "push" =
        .exitError 1 (overrideErrorMessage "push")
    ∧ dispatch ["push", "build"] ["push", "build", "pull"] "build" =
        .projectTask "build" :=
  ⟨((C3_override_allow_list ["push", "build"] ["push", "build", "pull"] "push"
      (by decide)).1 (by decide) (by decide)).1,
   (C3_override_allow_list ["push", "build"] ["push", "build", "pull"] "build"
      (by decide)).2.1 (by decide) (by decide)⟩

/-! ## C4: `popStringParam` (`lua-sandbox`) -/

/-- Whether a Lua value is a string (`lv.(lua.LString)` type assertion). -/
def luaValueIsString : LuaValue → Bool
  | .str _ => true
  | _ => false

/-- Go `popStringParam`: the Lua call stack is a list whose head is the
bottom of the stack, i.e. the first argument.  The Go code reads the
bottom slot, pops the whole stack and pushes the remaining slots back,
which nets to removing the first argument.  Result: (value, found,
error). -/
def popStringParam : List LuaValue → (String × Bool × Option String) × List LuaValue
  | [] => (("", false, none), [])
  | lv :: keeper =>
    match lv with
    | .nil => (("", true, some "parameter is not a string"), keeper)
    | .str s => ((s, true, none), keeper)
    | _ => (("", true, some "parameter is not a string"), keeper)

/-- C4: the argument-extraction primitive has exactly two non-success
outcomes that are never collapsed: an empty stack yields
(`""`, found=false, no error); a supplied argument that is not a string
(including an explicit nil) yields (`""`, found=true, a type error); a
supplied string `s` yields (`s`, found=true, no error).  In every
non-empty case the argument is consumed from the stack. -/
theorem C4_pop_string_param (s : String) (lv : LuaValue) (rest : List LuaValue) :
    popStringParam [] = (("", false, none), [])
    ∧ popStringParam (.str s :: rest) = ((s, true, none), rest)
    ∧ (luaValueIsString lv = false →
        popStringParam (lv :: rest) = (("", true, some "parameter is not a string"), rest)) := by
  refine ⟨rfl, rfl, ?_⟩
  intro h
  cases lv with
  | str s' => cases h
  | nil => rfl
  | boolean b => rfl
  | number n => rfl
  | table t => rfl
  | fn r => rfl

/-- Witness for C4: a number argument is found but rejected with the
type error. -/
theorem C4_pop_string_param_witness :
    popStringParam [.number 3, .str "next"] =
      (("", true, some "parameter is not a string"), [.str "next"]) :=
  (C4_pop_string_param "x" (.number 3) [.str "next"]).2.2 rfl

/-! ## C5: `Project.Exec` restores the working directory
(`proj/project.go`) -/

/-- Process state threaded through `Project.Exec`: the process-global
working directory plus an opaque rest-of-world component that a task may
mutate. -/
structure ProcState (W : Type) where
  cwd : String
  world : W
deriving DecidableEq, Repr

/-- Argument quoting in `Exec`: an argument containing a space gets its
double quotes escaped and is wrapped in double quotes. -/
def quoteArg (arg : String) : String :=
  if arg.contains ' ' then "\"" ++ (arg.replace "\"" "\\\"") ++ "\"" else arg

/-- The command lookup loop in `Exec`: first catalog entry whose name
matches. -/
def findCmd : List Command → String → Option Command
  | [], _ => none
  | c :: rest, name => if c.Name = name then some c else findCmd rest name

/-- Go `Project.Exec` (`proj/project.go`): captures the working directory,
changes into the project root (`chRootDir`), arms
`defer os.Chdir(previousWorkDir)`, parses the catalog, looks the task up
by name, invokes the bound callable with the quoted positional
arguments, and restores the captured directory on every exit path.
`validDir` models whether `os.Chdir` succeeds on a directory, and `impl`
models `CallByParam` on a function reference: it returns the protected
call's error and the resulting process state. -/
def ProjectExec {W : Type} (validDir : String → Bool)
    (impl : Nat → List String → ProcState W → Option String × ProcState W)
    (rootDir : String) (tasks : LuaTable) (args : List String)
    (st : ProcState W) : (Bool × Option String) × ProcState W :=
  match args with
  | [] => ((false, some "at least one argument required (task name)"), st)
  | functionName :: rest =>
    if validDir rootDir then
      match listCommands tasks with
      | .error e => ((false, some e), ⟨st.cwd, st.world⟩)
      | .ok cmds =>
        match findCmd cmds functionName with
        | none => ((false, none), ⟨st.cwd, st.world⟩)
        | some c =>
          let call := impl c.Function (rest.map quoteArg) ⟨rootDir, st.world⟩
          ((true, call.1), ⟨st.cwd, call.2.world⟩)
    else ((false, some ("chdir " ++ rootDir ++ " failed")), st)

/-- C5: when the first argument names a declared task, `Exec` invokes
the task's callable in a state whose working directory is the project
root, returns `found = true` together with whatever error the task body
raised, and the final working directory equals the captured one — also
when the task errored or mutated the world. -/
theorem C5_exec_restores_cwd {W : Type} (validDir : String → Bool)
    (impl : Nat → List String → ProcState W → Option String × ProcState W)
    (rootDir name : String) (tasks : LuaTable) (rest : List String)
    (st : ProcState W) (cmds : List Command) (c : Command)
    (hdir : validDir rootDir = true)
    (hcmds : listCommands tasks = .ok cmds)
    (hfind : findCmd cmds name = some c) :
    ProjectExec validDir impl rootDir tasks (name :: rest) st =
      ((true, (impl c.Function (rest.map quoteArg) ⟨rootDir, st.world⟩).1),
       ⟨st.cwd, (impl c.Function (rest.map quoteArg) ⟨rootDir, st.world⟩).2.world⟩)
    ∧ (ProjectExec validDir impl rootDir tasks (name :: rest) st).2.cwd = st.cwd := by
  have h : ProjectExec validDir impl rootDir tasks (name :: rest) st =
      ((true, (impl c.Function (rest.map quoteArg) ⟨rootDir, st.world⟩).1),
       ⟨st.cwd, (impl c.Function (rest.map quoteArg) ⟨rootDir, st.world⟩).2.world⟩) := by
    simp only [ProjectExec, hdir, if_true, hcmds, hfind]
  exact ⟨h, by rw [h]⟩

/-- Witness for C5: a task that raises an error and bumps the world
still leaves the working directory as captured. -/
theorem C5_exec_restores_cwd_witness :
    ProjectExec (W := Nat) (fun _ => true)
      (fun _ _ stt => (some "task failed", ⟨stt.cwd, stt.world + 1⟩))
      "/proj" [(.str "task", .fn 7)] ["task"] ⟨"/home/user", 0⟩ =
      ((true, some "task failed"), ⟨"/home/user", 1⟩) :=
  (C5_exec_restores_cwd (W := Nat) (fun _ => true)
      (fun _ _ stt => (some "task failed", ⟨stt.cwd, stt.world + 1⟩))
      "/proj" "task" [(.str "task", .fn 7)] [] ⟨"/home/user", 0⟩
      [⟨"task", "", "", 7⟩] ⟨"task", "", "", 7⟩
      rfl (by rfl) rfl).1

/-! ## C6 and C10: the project locator (`proj/project/init.go`) -/

/-- Result of `os.Stat` on a path: `none` models the not-exist error,
otherwise the relevant part of `os.FileInfo`. -/
structure FileInfo where
  isDir : Bool
deriving DecidableEq, Repr

/-- A cleaned absolute path, as its list of components ( `[]` is the
filesystem root `/`); `filepath.Dir` is `List.dropLast`, and
`path == filepath.Dir(path)` exactly at the root. -/
abbrev FsPath := List String

/-- A read-only filesystem: what `os.Stat` returns on each path. -/
abbrev FileSystem := FsPath → Option FileInfo

/-- Go `isProjectRoot`: stats `dirPath/ConfigFileName`; a missing entry or
a directory entry is not a project marker, a file entry is. -/
def isProjectRoot (fs : FileSystem) (dirPath : FsPath) : Bool :=
  match fs (dirPath ++ [ConfigFileName]) with
  | none => false
  | some fileInfo => if fileInfo.isDir then false else true

/-- Go `FindProjectRoot`: tests the current candidate directory, stops when
the parent of a directory equals itself, and otherwise moves to the
parent.  Generic in the root test so that C10 can instantiate it with
`isProjectRoot`. -/
def FindProjectRoot (isRoot : FsPath → Bool) (path : FsPath) : Except String FsPath :=
  if isRoot path then .ok path
  else if h : path.dropLast = path then .error "can't find project root directory"
  else FindProjectRoot isRoot path.dropLast
termination_by path.length
decreasing_by
  have hne : path ≠ [] := by
    intro hnil
    rw [hnil] at h
    exact h rfl
  rw [List.length_dropLast]
  exact Nat.sub_lt (List.length_pos.mpr hne) Nat.one_pos

/-- Go `FindProjectRoot` instrumented with the number of moves to the
parent directory. -/
def FindProjectRootSteps (isRoot : FsPath → Bool) (path : FsPath) :
    Except String FsPath × Nat :=
  if isRoot path then (.ok path, 0)
  else if h : path.dropLast = path then (.error "can't find project root directory", 0)
  else
    let r := FindProjectRootSteps isRoot path.dropLast
    (r.1, r.2 + 1)
termination_by path.length
decreasing_by
  have hne : path ≠ [] := by
    intro hnil
    rw [hnil] at h
    exact h rfl
  rw [List.length_dropLast]
  exact Nat.sub_lt (List.length_pos.mpr hne) Nat.one_pos

/-- The chain of candidate directories `FindProjectRoot` visits: the
path itself, its parent, …, the filesystem root. -/
def ancestors (path : FsPath) : List FsPath :=
  if h : path = [] then [[]]
  else path :: ancestors path.dropLast
termination_by path.length
decreasing_by
  rw [List.length_dropLast]
  exact Nat.sub_lt (List.length_pos.mpr h) Nat.one_pos

/-- The project-locating prefix of `Load` (`proj/project.go`): an error
from `FindProjectRoot` is swallowed and reported as the normal
"not in a project" state (`nil, nil`), never as a caller-visible
failure. -/
def loadLocateProject (isRoot : FsPath → Bool) (path : FsPath) : Option FsPath :=
  match FindProjectRoot isRoot path with
  | .error _ => none
  | .ok root => some root

/-- Every path is the head of its own ancestor chain. -/
theorem self_mem_ancestors (p : FsPath) : p ∈ ancestors p := by
  unfold ancestors
  split
  · simp_all
  · exact List.mem_cons_self _ _

/-- C6: for every input path, `FindProjectRoot` performs at most
(depth of the cleaned path) moves to the parent directory, the
instrumented run computes the same result, and when no ancestor
directory (including the filesystem root) passes the marker test it
returns its not-found error, which `Load` turns into the plain
"not in a project" result rather than a caller-visible failure. -/
theorem C6_find_project_root_terminates (isRoot : FsPath → Bool) (path : FsPath) :
    (FindProjectRootSteps isRoot path).2 ≤ path.length
    ∧ (FindProjectRootSteps isRoot path).1 = FindProjectRoot isRoot path
    ∧ ((∀ q ∈ ancestors path, isRoot q = false) →
        FindProjectRoot isRoot path = .error "can't find project root directory"
        ∧ loadLocateProject isRoot path = none) := by
  induction path using FindProjectRoot.induct isRoot with
  | case1 p hroot =>
    refine ⟨?_, ?_, ?_⟩
    · unfold FindProjectRootSteps
      simp [hroot]
    · unfold FindProjectRootSteps FindProjectRoot
      simp [hroot]
    · intro hnone
      have := hnone p (self_mem_ancestors p)
      rw [hroot] at this
      cases this
  | case2 p hroot hstop =>
    refine ⟨?_, ?_, ?_⟩
    · unfold FindProjectRootSteps
      simp [hroot, hstop]
    · unfold FindProjectRootSteps FindProjectRoot
      simp [hroot, hstop]
    · intro _
      constructor
      · unfold FindProjectRoot
        simp [hroot, hstop]
      · unfold loadLocateProject FindProjectRoot
        simp [hroot, hstop]
  | case3 p hroot hstop ih =>
    have hne : p ≠ [] := by
      intro hnil
      rw [hnil] at hstop
      exact hstop rfl
    have hpos : 0 < p.length := List.length_pos.mpr hne
    refine ⟨?_, ?_, ?_⟩
    · unfold FindProjectRootSteps
      simp only [hroot, if_false, Bool.false_eq_true, dif_neg hstop]
      have hlt : p.dropLast.length + 1 ≤ p.length := by
        rw [List.length_dropLast]
        omega
      calc (FindProjectRootSteps isRoot p.dropLast).2 + 1
          ≤ p.dropLast.length + 1 := Nat.add_le_add_right ih.1 1
        _ ≤ p.length := hlt
    · unfold FindProjectRootSteps FindProjectRoot
      simp only [hroot, if_false, Bool.false_eq_true, dif_neg hstop]
      exact ih.2.1
    · intro hnone
      have hnone' : ∀ q ∈ ancestors p.dropLast, isRoot q = false := by
        intro q hq
        refine hnone q ?_
        unfold ancestors
        rw [dif_neg hne]
        exact List.mem_cons_of_mem _ hq
      have hrec := ih.2.2 hnone'
      constructor
      · unfold FindProjectRoot
        simp only [hroot, if_false, Bool.false_eq_true, dif_neg hstop]
        exact hrec.1
      · unfold loadLocateProject
        unfold FindProjectRoot
        simp only [hroot, if_false, Bool.false_eq_true, dif_neg hstop]
        rw [hrec.1]

/-- Witness for C6: a 2-deep path with no marker anywhere takes at most
2 parent moves and resolves to "not in a project". -/
theorem C6_find_project_root_terminates_witness :
    (FindProjectRootSteps (fun _ => false) ["home", "user"]).2 ≤ 2
    ∧ FindProjectRoot (fun _ => false) ["home", "user"] =
        .error "can't find project root directory"
    ∧ loadLocateProject (fun _ => false) ["home", "user"] = none :=
  have h := C6_find_project_root_terminates (fun _ => false) ["home", "user"]
  have hnone : ∀ q ∈ ancestors (["home", "user"] : FsPath), (fun _ => false) q = false :=
    fun q _ => rfl
  ⟨h.1, (h.2.2 hnone).1, (h.2.2 hnone).2⟩

/-- C10: an entry named `dockerproject.lua` that is itself a directory
is not a project marker: `isProjectRoot` returns false on such a
directory, so `FindProjectRoot` skips it and continues the upward
search (or stops with not-found at the filesystem root). -/
theorem C10_marker_must_be_regular_file (fs : FileSystem) (dir : FsPath)
    (hdir : fs (dir ++ [ConfigFileName]) = some ⟨true⟩) :
    isProjectRoot fs dir = false
    ∧ FindProjectRoot (isProjectRoot fs) dir =
        (if dir.dropLast = dir then .error "can't find project root directory"
         else FindProjectRoot (isProjectRoot fs) dir.dropLast) := by
  have hroot : isProjectRoot fs dir = false := by
    unfold isProjectRoot
    rw [hdir]
    exact rfl
  refine ⟨hroot, ?_⟩
  conv_lhs => rw [FindProjectRoot]
  simp only [hroot, Bool.false_eq_true, if_false]
  by_cases hstop : dir.dropLast = dir
  · rw [dif_pos hstop, if_pos hstop]
  · rw [dif_neg hstop, if_neg hstop]

/-- Witness for C10: `/home` containing a directory named
`dockerproject.lua` is skipped and the search continues at `/`. -/
theorem C10_marker_must_be_regular_file_witness :
    isProjectRoot
      (fun p => if p = ["home", "dockerproject.lua"] then some ⟨true⟩ else none)
      ["home"] = false
    ∧ FindProjectRoot
        (isProjectRoot
          (fun p => if p = ["home", "dockerproject.lua"] then some ⟨true⟩ else none))
        ["home"] =
        (if (["home"] : FsPath).dropLast = ["home"] then
          .error "can't find project root directory"
         else
          FindProjectRoot
            (isProjectRoot
              (fun p => if p = ["home", "dockerproject.lua"] then some ⟨true⟩ else none))
            (["home"] : FsPath).dropLast) :=
  C10_marker_must_be_regular_file
    (fun p => if p = ["home", "dockerproject.lua"] then some ⟨true⟩ else none)
    ["home"] (by simp [ConfigFileName])

/-! ## C7: project-scoping labels at resource-creation call sites
(`lua-sandbox/os.go` `createContainer`, `cli/command/volume/create.go`
`runCreate`) -/

/-- Project identity as read from the marker (`proj.Config`). -/
structure ProjConfig where
  ID : String
  Name : String
deriving DecidableEq, Repr

/-- A Go `map[string]string`, as its lookup function. -/
def LabelMap : Type := String → Option String

/-- Go map assignment `m[k] = v`. -/
def mapInsert (m : LabelMap) (k v : String) : LabelMap :=
  fun s => if s = k then some v else m s

/-- The label-injection block shared by `createContainer`
(`lua-sandbox/os.go`) and `runCreate` (`cli/command/volume/create.go`):
when a project is active insert the two marker labels
`docker.project.id:<ID>` and `docker.project.name:<NAME>` with empty
values, otherwise leave the map alone. -/
def addProjectLabels (proj : Option ProjConfig) (labels : LabelMap) : LabelMap :=
  match proj with
  | none => labels
  | some p =>
    mapInsert (mapInsert labels ("docker.project.id:" ++ p.ID) "")
      ("docker.project.name:" ++ p.Name) ""

/-- Counterexample for C7: the claim's label keys `project.id:<ID>` /
`project.name:<NAME>` are not the ones the code inserts — for the
project (ID `x`, name `y`) the resulting map has no `project.id:x` or
`project.name:y` key, while the `docker.`-prefixed keys are present. -/
theorem C7_label_injection_counterexample :
    addProjectLabels (some ⟨"x", "y"⟩) (fun _ => none) "project.id:x" = none
    ∧ addProjectLabels (some ⟨"x", "y"⟩) (fun _ => none) "project.name:y" = none
    ∧ addProjectLabels (some ⟨"x", "y"⟩) (fun _ => none) "docker.project.id:x" = some ""
    ∧ addProjectLabels (some ⟨"x", "y"⟩) (fun _ => none) "docker.project.name:y" = some "" := by
  refine ⟨?_, ?_, ?_, ?_⟩ <;> decide

/-- C7 (amended): when a project is active, the resource-creation call
sites insert exactly the two labels `docker.project.id:<ID>` and
`docker.project.name:<NAME>` with empty-string values, leave every
other key unchanged, insert nothing when no project is active, and
inserting twice for the same project equals inserting once. -/
theorem C7_label_injection (p : ProjConfig) (m : LabelMap) :
    addProjectLabels (some p) m ("docker.project.id:" ++ p.ID) = some ""
    ∧ addProjectLabels (some p) m ("docker.project.name:" ++ p.Name) = some ""
    ∧ (∀ k, k ≠ "docker.project.id:" ++ p.ID → k ≠ "docker.project.name:" ++ p.Name →
        addProjectLabels (some p) m k = m k)
    ∧ addProjectLabels none m = m
    ∧ addProjectLabels (some p) (addProjectLabels (some p) m) = addProjectLabels (some p) m := by
  refine ⟨?_, ?_, ?_, rfl, ?_⟩
  · simp only [addProjectLabels, mapInsert]
    by_cases h : ("docker.project.id:" ++ p.ID) = ("docker.project.name:" ++ p.Name)
    · rw [if_pos h]
    · rw [if_neg h]
      simp
  · simp only [addProjectLabels, mapInsert]
    simp
  · intro k hid hname
    simp only [addProjectLabels, mapInsert]
    rw [if_neg hname, if_neg hid]
  · funext k
    simp only [addProjectLabels, mapInsert]
    by_cases hname : k = "docker.project.name:" ++ p.Name
    · rw [if_pos hname, if_pos hname]
    · rw [if_neg hname, if_neg hname]
      by_cases hid : k = "docker.project.id:" ++ p.ID
      · rw [if_pos hid, if_pos hid]
      · rw [if_neg hid, if_neg hid]

/-- Witness for C7 (amended): concrete project and empty map; the two
inserted keys hold `""`, an unrelated key stays absent, and the
insertion is idempotent. -/
theorem C7_label_injection_witness :
    addProjectLabels (some ⟨"x", "y"⟩) (fun _ => none) "docker.project.id:x" = some ""
    ∧ addProjectLabels (some ⟨"x", "y"⟩) (fun _ => none) "unrelated" = none
    ∧ addProjectLabels (some ⟨"x", "y"⟩)
        (addProjectLabels (some ⟨"x", "y"⟩) (fun _ => none)) =
        addProjectLabels (some ⟨"x", "y"⟩) (fun _ => none) :=
  have h := C7_label_injection ⟨"x", "y"⟩ (fun _ => none)
  ⟨h.1, h.2.2.1 "unrelated" (by decide) (by decide), h.2.2.2.2⟩

/-! ## C8: image ID hash-prefix stripping (`proj/dockerImage.go`) -/

/-- Everything after the first `':'`, or `none` when there is no colon;
character-level core of `strings.SplitN(imageID, ":", 2)` guarded by
`strings.Contains(imageID, ":")`. -/
def stripIDHeaderChars : List Char → Option (List Char)
  | [] => none
  | c :: rest => if c = ':' then some rest else stripIDHeaderChars rest

/-- Go `removeImageIDHeader`: drops an `algo:` prefix from an image ID,
returning the ID unchanged when it contains no colon. -/
def removeImageIDHeader (imageID : String) : String :=
  match stripIDHeaderChars imageID.data with
  | some rest => String.mk rest
  | none => imageID

/-- Go `types.ImageSummary`, restricted to the fields the list marshaller
copies. -/
structure ImageSummary where
  ID : String
  ParentID : String
  Created : Int
  Size : Int
  RepoTags : List String
deriving DecidableEq, Repr

/-- A Lua array of strings (consecutive integer keys from 1). -/
def luaStrArray (xs : List String) : LuaTable :=
  xs.enum.map (fun e => (LuaKey.num ((e.1 : Int) + 1), LuaValue.str e.2))

/-- The per-image Lua table built by `dockerImageList`
(`proj/dockerImage.go`): `id` and `parentId` pass through
`removeImageIDHeader`. -/
def imageListEntry (img : ImageSummary) : LuaTable :=
  [(.str "id", .str (removeImageIDHeader img.ID)),
   (.str "parentId", .str (removeImageIDHeader img.ParentID)),
   (.str "created", .number img.Created),
   (.str "size", .number img.Size),
   (.str "repoTags", .table (luaStrArray img.RepoTags))]

/-- Go `types.GraphDriverData`. -/
structure GraphDriverData where
  Data : List (String × String)
  Name : String
deriving DecidableEq, Repr

/-- Go `types.RootFS` (`Type` is a Lean keyword, rendered `FsType`). -/
structure RootFS where
  FsType : String
  Layers : List String
  BaseLayer : String
deriving DecidableEq, Repr

/-- Go `types.ImageInspect`, restricted to the fields the inspect
marshaller copies. -/
structure ImageInspect where
  ID : String
  RepoTags : List String
  RepoDigests : List String
  Parent : String
  Comment : String
  Created : String
  Container : String
  DockerVersion : String
  Author : String
  Architecture : String
  Os : String
  OsVersion : String
  Size : Int
  VirtualSize : Int
  GraphDriver : GraphDriverData
  RootFS : RootFS
deriving DecidableEq, Repr

/-- Go `ImageInspectToLuaTable` (`proj/dockerImage.go`): note that `id` is
set to the raw `i.ID`, with no `removeImageIDHeader` call. -/
def ImageInspectToLuaTable (i : ImageInspect) : LuaTable :=
  [(.str "id", .str i.ID),
   (.str "repoTags", .table (luaStrArray i.RepoTags)),
   (.str "repoDigests", .table (luaStrArray i.RepoDigests)),
   (.str "parent", .str i.Parent),
   (.str "comment", .str i.Comment),
   (.str "created", .str i.Created),
   (.str "container", .str i.Container),
   (.str "dockerVersion", .str i.DockerVersion),
   (.str "author", .str i.Author),
   (.str "architecture", .str i.Architecture),
   (.str "os", .str i.Os),
   (.str "osVersion", .str i.OsVersion),
   (.str "size", .number i.Size),
   (.str "virtualSize", .number i.VirtualSize),
   (.str "graphDriver", .table
     [(.str "data", .table (i.GraphDriver.Data.map
        (fun e => (LuaKey.str e.1, LuaValue.str e.2)))),
      (.str "name", .str i.GraphDriver.Name)]),
   (.str "rootFS", .table
     [(.str "type", .str i.RootFS.FsType),
      (.str "layers", .table (luaStrArray i.RootFS.Layers)),
      (.str "baseLayer", .str i.RootFS.BaseLayer)])]

/-- Counterexample for C8: the inspect marshaller does not strip the
hash prefix — an image inspected with ID `sha256:abcd1234` is exposed to
scripts with `id = "sha256:abcd1234"`, not the bare digest the claim
requires. -/
theorem C8_id_stripping_counterexample :
    luaValueToString (rawGetString
      (ImageInspectToLuaTable
        ⟨"sha256:abcd1234", [], [], "", "", "", "", "", "", "", "", "", 0, 0,
         ⟨[], ""⟩, ⟨"", [], ""⟩⟩) "id") = some "sha256:abcd1234"
    ∧ ("sha256:abcd1234" : String) ≠ "abcd1234" := by
  refine ⟨rfl, ?_⟩
  decide

theorem stripIDHeaderChars_append (l t : List Char) (h : ∀ c ∈ l, c ≠ ':') :
    stripIDHeaderChars (l ++ ':' :: t) = some t := by
  induction l with
  | nil => simp [stripIDHeaderChars]
  | cons c cs ih =>
    have hc : c ≠ ':' := h c (List.mem_cons_self _ _)
    simp only [List.cons_append, stripIDHeaderChars, if_neg hc]
    exact ih (fun c' hc' => h c' (List.mem_cons_of_mem _ hc'))

/-- C8 (amended): `removeImageIDHeader` strips an `algo:` prefix down to
the digest, and the list marshaller applies it to the exposed `id` (and
`parentId`); the inspect marshaller, however, exposes the raw inspect ID
unchanged. -/
theorem C8_id_stripping (img : ImageSummary) (i : ImageInspect) (algo hex : String)
    (halgo : ∀ c ∈ algo.data, c ≠ ':') :
    luaValueToString (rawGetString (imageListEntry img) "id") =
        some (removeImageIDHeader img.ID)
    ∧ luaValueToString (rawGetString (imageListEntry img) "parentId") =
        some (removeImageIDHeader img.ParentID)
    ∧ removeImageIDHeader (algo ++ ":" ++ hex) = hex
    ∧ luaValueToString (rawGetString (ImageInspectToLuaTable i) "id") = some i.ID := by
  refine ⟨rfl, rfl, ?_, rfl⟩
  unfold removeImageIDHeader
  have hdata : (algo ++ ":" ++ hex).data = algo.data ++ ':' :: hex.data := by
    show (algo.data ++ [':']) ++ hex.data = algo.data ++ ':' :: hex.data
    simp
  rw [hdata, stripIDHeaderChars_append algo.data hex.data halgo]

/-- Witness for C8 (amended): `sha256:abcd1234` strips to `abcd1234`
for the list path, and a concrete inspect record keeps its raw ID. -/
theorem C8_id_stripping_witness :
    luaValueToString (rawGetString
      (imageListEntry ⟨"sha256:abcd1234", "sha256:ffff", 0, 0, []⟩) "id") =
        some (removeImageIDHeader "sha256:abcd1234")
    ∧ removeImageIDHeader ("sha256" ++ ":" ++ "abcd1234") = "abcd1234"
    ∧ luaValueToString (rawGetString
        (ImageInspectToLuaTable
          ⟨"sha256:abcd1234", [], [], "", "", "", "", "", "", "", "", "", 0, 0,
           ⟨[], ""⟩, ⟨"", [], ""⟩⟩) "id") = some "sha256:abcd1234" :=
  have h := C8_id_stripping ⟨"sha256:abcd1234", "sha256:ffff", 0, 0, []⟩
    ⟨"sha256:abcd1234", [], [], "", "", "", "", "", "", "", "", "", 0, 0,
     ⟨[], ""⟩, ⟨"", [], ""⟩⟩ "sha256" "abcd1234" (by decide)
  ⟨h.1, h.2.2.1, h.2.2.2⟩

/-! ## C9: the recent-projects index (`SaveInRecentProjects`) -/

/-- One entry of the `.recentProjects.json` side index. -/
structure RecentProject where
  Name : String
  RootDir : String
  ID : String
  Timestamp : Int
deriving DecidableEq, Repr

/-- Go `recentProjects.Less(i, j)` is `a[i].Timestamp > a[j].Timestamp`, so
the sort order places larger (newer) timestamps first. -/
def recentLE (a b : RecentProject) : Prop := b.Timestamp ≤ a.Timestamp

instance : DecidableRel recentLE :=
  fun a b => inferInstanceAs (Decidable (b.Timestamp ≤ a.Timestamp))

instance : IsTotal RecentProject recentLE := ⟨fun a b => Int.le_total b.Timestamp a.Timestamp⟩

instance : IsTrans RecentProject recentLE := ⟨fun _ _ _ h h' => le_trans h' h⟩

/-- The replace-or-append loop of `SaveInRecentProjects`: the first
entry with the saved project's id is overwritten in place, otherwise the
new entry is appended. -/
def replaceOrAppend : List RecentProject → RecentProject → List RecentProject
  | [], rp => [rp]
  | x :: xs, rp => if x.ID = rp.ID then rp :: xs else x :: replaceOrAppend xs rp

/-- Go `SaveInRecentProjects`: replace-or-append the new entry, then
`sort.Sort(rProjects)` with the descending-timestamp `Less` (modelled by
an insertion sort, which produces exactly a sorted permutation); the
result is what `saveRecentProjects` persists. -/
def SaveInRecentProjects (prior : List RecentProject) (rp : RecentProject) :
    List RecentProject :=
  List.insertionSort recentLE (replaceOrAppend prior rp)

theorem countP_replaceOrAppend (prior : List RecentProject) (rp : RecentProject)
    (hdup : prior.countP (fun x => x.ID == rp.ID) ≤ 1) :
    (replaceOrAppend prior rp).countP (fun x => x.ID == rp.ID) = 1 := by
  induction prior with
  | nil => simp [replaceOrAppend]
  | cons x xs ih =>
    by_cases hx : x.ID = rp.ID
    · simp only [replaceOrAppend, if_pos hx]
      rw [List.countP_cons] at hdup ⊢
      simp only [hx, beq_self_eq_true, if_pos] at hdup ⊢
      have hzero : xs.countP (fun x => x.ID == rp.ID) = 0 := by omega
      simp [hzero]
    · simp only [replaceOrAppend, if_neg hx]
      rw [List.countP_cons] at hdup ⊢
      have hxb : (x.ID == rp.ID) = false := beq_eq_false_iff_ne.mpr hx
      simp only [hxb] at hdup ⊢
      simp only [if_false, Bool.false_eq_true]
      have := ih (by omega)
      omega

theorem mem_replaceOrAppend_id (prior : List RecentProject) (rp x : RecentProject)
    (hdup : prior.countP (fun y => y.ID == rp.ID) ≤ 1)
    (hx : x ∈ replaceOrAppend prior rp) (hid : x.ID = rp.ID) : x = rp := by
  induction prior with
  | nil =>
    simp only [replaceOrAppend, List.mem_singleton] at hx
    exact hx
  | cons y ys ih =>
    by_cases hy : y.ID = rp.ID
    · simp only [replaceOrAppend, if_pos hy] at hx
      rcases List.mem_cons.mp hx with hxe | hxm
      · exact hxe
      · exfalso
        rw [List.countP_cons] at hdup
        simp only [hy, beq_self_eq_true, if_pos] at hdup
        have hzero : ys.countP (fun y => y.ID == rp.ID) = 0 := by omega
        have := List.countP_eq_zero.mp hzero x hxm
        simp [hid] at this
    · simp only [replaceOrAppend, if_neg hy] at hx
      rcases List.mem_cons.mp hx with hxe | hxm
      · exfalso
        rw [hxe] at hid
        exact hy hid
      · refine ih ?_ hxm
        rw [List.countP_cons] at hdup
        have hyb : (y.ID == rp.ID) = false := beq_eq_false_iff_ne.mpr hy
        simp only [hyb] at hdup
        omega

theorem replaceOrAppend_of_not_mem (prior : List RecentProject) (rp : RecentProject)
    (h : ∀ x ∈ prior, x.ID ≠ rp.ID) : replaceOrAppend prior rp = prior ++ [rp] := by
  induction prior with
  | nil => rfl
  | cons y ys ih =>
    have hy : y.ID ≠ rp.ID := h y (List.mem_cons_self _ _)
    simp only [replaceOrAppend, if_neg hy, List.cons_append]
    rw [ih (fun x hx => h x (List.mem_cons_of_mem _ hx))]

/-- C9: saving into a recent-projects list holding at most one entry for
the saved id leaves exactly one entry for that id — the freshly built
one, with the new timestamp — appends (as one new entry) when the id is
new, and persists the list sorted descending by timestamp; the persisted
list is always a permutation of the in-place replace-or-append result. -/
theorem C9_recent_projects_dedupe (prior : List RecentProject) (rp : RecentProject)
    (hdup : prior.countP (fun x => x.ID == rp.ID) ≤ 1) :
    (SaveInRecentProjects prior rp).countP (fun x => x.ID == rp.ID) = 1
    ∧ (∀ x ∈ SaveInRecentProjects prior rp, x.ID = rp.ID → x = rp)
    ∧ List.Sorted recentLE (SaveInRecentProjects prior rp)
    ∧ (SaveInRecentProjects prior rp).Perm (replaceOrAppend prior rp)
    ∧ ((∀ x ∈ prior, x.ID ≠ rp.ID) → replaceOrAppend prior rp = prior ++ [rp]) := by
  have hperm : (SaveInRecentProjects prior rp).Perm (replaceOrAppend prior rp) :=
    List.perm_insertionSort recentLE (replaceOrAppend prior rp)
  refine ⟨?_, ?_, ?_, hperm, replaceOrAppend_of_not_mem prior rp⟩
  · rw [hperm.countP_eq]
    exact countP_replaceOrAppend prior rp hdup
  · intro x hx hid
    exact mem_replaceOrAppend_id prior rp x hdup (hperm.mem_iff.mp hx) hid
  · exact List.sorted_insertionSort recentLE (replaceOrAppend prior rp)

/-- Witness for C9: re-saving id `id1` with a newer timestamp leaves one
`id1` entry carrying the new timestamp, sorted descending. -/
theorem C9_recent_projects_dedupe_witness :
    (SaveInRecentProjects
        [⟨"a", "/a", "id1", 5⟩, ⟨"b", "/b", "id2", 3⟩]
        ⟨"a", "/a", "id1", 10⟩).countP (fun x => x.ID == "id1") = 1
    ∧ List.Sorted recentLE
        (SaveInRecentProjects
          [⟨"a", "/a", "id1", 5⟩, ⟨"b", "/b", "id2", 3⟩]
          ⟨"a", "/a", "id1", 10⟩) :=
  have h := C9_recent_projects_dedupe
    [⟨"a", "/a", "id1", 5⟩, ⟨"b", "/b", "id2", 3⟩]
    ⟨"a", "/a", "id1", 10⟩ (by decide)
  ⟨h.1, h.2.2.1⟩
